import Mathlib

/-!
Shallow embedding of the WS2812 RP235x driver (`src/lib.rs`) and proofs of
its specified properties.  Machine integers (`u32`, `u16`, `u8`) are modelled
as `Nat` with explicit `% 2 ^ w` at the points where the Rust code narrows or
could wrap; fallible construction (a Rust `assert!` panic) is modelled as
`Option`.
-/

namespace Ws2812

/-- Source constant `T1: u8 = 2` (start bit cycles). -/
def T1 : Nat := 2

/-- Source constant `T2: u8 = 5` (data bit cycles). -/
def T2 : Nat := 5

/-- Source constant `T3: u8 = 3` (stop bit cycles). -/
def T3 : Nat := 3

/-- Source constant `CYCLES_PER_BIT: u32 = (T1 + T2 + T3) as u32`. -/
def CYCLES_PER_BIT : Nat := T1 + T2 + T3

/-- Source constant `FREQ: HertzU32 = HertzU32::kHz(800)`, in Hz. -/
def FREQ : Nat := 800000

/-- `let bit_freq = FREQ * CYCLES_PER_BIT;` from `Ws2812Direct::new`. -/
def bit_freq : Nat := FREQ * CYCLES_PER_BIT

/-- `let mut int = clock_freq / bit_freq;` (u32 division, no wrap possible). -/
def divisor_int (clock_freq : Nat) : Nat := clock_freq / bit_freq

/-- `let rem = clock_freq - (int * bit_freq);` (u32 subtraction; never
borrows since `int * bit_freq ≤ clock_freq`). -/
def divisor_rem (clock_freq : Nat) : Nat :=
  clock_freq - divisor_int clock_freq * bit_freq

/-- `let frac = (rem * 256) / bit_freq;` with the u32 multiplication
modelled by an explicit `% 2 ^ 32`. -/
def divisor_frac (clock_freq : Nat) : Nat :=
  divisor_rem clock_freq * 256 % 2 ^ 32 / bit_freq

/-- The condition of the `assert!` in `Ws2812Direct::new`:
`(1..=65536).contains(&int) && (int != 65536 || frac == 0)`. -/
def divisorOk (clock_freq : Nat) : Prop :=
  (1 ≤ divisor_int clock_freq ∧ divisor_int clock_freq ≤ 65536) ∧
    (divisor_int clock_freq ≠ 65536 ∨ divisor_frac clock_freq = 0)

instance (clock_freq : Nat) : Decidable (divisorOk clock_freq) := by
  unfold divisorOk; infer_instance

/-- The divisor part of `Ws2812Direct::new`: runs the `assert!` (modelled as
`Option`, `none` = panic), applies the `if int == 65536 { int = 0 }` wrap,
and performs the narrowing casts `int as u16` and `frac as u8`.  Returns the
`(int, frac)` pair handed to `clock_divisor_fixed_point`. -/
def ws2812_new (clock_freq : Nat) : Option (Nat × Nat) :=
  let int := divisor_int clock_freq
  let frac := divisor_frac clock_freq
  if divisorOk clock_freq then
    some ((if int = 65536 then 0 else int) % 2 ^ 16, frac % 2 ^ 8)
  else none

/-- `smart_leds::RGB8`: one 8-bit-per-channel color.  Fields are `u8`,
modelled as `Nat` with bounds `< 256` carried as hypotheses. -/
structure RGB8 where
  r : Nat
  g : Nat
  b : Nat
deriving DecidableEq, Repr

/-- `let word: u32 = g << 24 | r << 16 | b << 8;` from
`Ws2812Direct::write`, with the u32 result modelled by `% 2 ^ 32`. -/
def packWord (c : RGB8) : Nat :=
  (c.g <<< 24 ||| c.r <<< 16 ||| c.b <<< 8) % 2 ^ 32

/-- Byte-lane extraction described by the spec's round-trip test: take the
three high byte lanes of a wire word in order g, r, b and return `(r, g, b)`. -/
def unpackWord (w : Nat) : Nat × Nat × Nat :=
  (w / 2 ^ 16 % 2 ^ 8, w / 2 ^ 24 % 2 ^ 8, w / 2 ^ 8 % 2 ^ 8)

/-- `packWord` as plain arithmetic on in-range channels. -/
lemma packWord_eq (c : RGB8) (hr : c.r < 256) (hg : c.g < 256) (hb : c.b < 256) :
    packWord c = c.g * 2 ^ 24 + c.r * 2 ^ 16 + c.b * 2 ^ 8 := by
  have h1 : c.r <<< 16 ||| c.b <<< 8 = c.r * 2 ^ 16 + c.b * 2 ^ 8 := by
    rw [Nat.shiftLeft_eq, Nat.shiftLeft_eq]
    rw [show c.r * 2 ^ 16 = 2 ^ 16 * c.r by ring]
    rw [← Nat.mul_add_lt_is_or (by omega : c.b * 2 ^ 8 < 2 ^ 16) c.r]
  have h2 : c.g <<< 24 ||| (c.r <<< 16 ||| c.b <<< 8) =
      c.g * 2 ^ 24 + (c.r * 2 ^ 16 + c.b * 2 ^ 8) := by
    rw [h1, Nat.shiftLeft_eq]
    rw [show c.g * 2 ^ 24 = 2 ^ 24 * c.g by ring]
    rw [← Nat.mul_add_lt_is_or (by omega : c.r * 2 ^ 16 + c.b * 2 ^ 8 < 2 ^ 24) c.g]
  unfold packWord
  rw [Nat.lor_assoc, h2]
  have : c.g * 2 ^ 24 + (c.r * 2 ^ 16 + c.b * 2 ^ 8) < 2 ^ 32 := by omega
  rw [Nat.mod_eq_of_lt this]
  ring

/-! ### Transmit queue and the blocking write loop of `Ws2812Direct::write` -/

/-- The PIO transmit FIFO (`Tx`), modelled as its current contents together
with the history of all words ever accepted by `Tx::write`. -/
structure TxState where
  fifo : List Nat
  pushed : List Nat
deriving DecidableEq, Repr

/-- `Tx::write(word) -> bool`: pushes `word` when the FIFO has room and
returns `true`; returns `false` leaving everything unchanged when full.
`cap` is the FIFO capacity. -/
def txWrite (cap : Nat) (w : Nat) (s : TxState) : Bool × TxState :=
  if s.fifo.length < cap then (true, ⟨s.fifo ++ [w], s.pushed ++ [w]⟩)
  else (false, s)

/-- The hardware state machine consuming `k` words from the front of the
FIFO (what happens asynchronously while the CPU spins on `nop`). -/
def consumeN (k : Nat) (s : TxState) : TxState :=
  ⟨s.fifo.drop k, s.pushed⟩

/-- `while !self.tx.write(word) { cortex_m::asm::nop(); }`: try to push;
on failure the hardware drains some words (one schedule entry per spin) and
the loop retries.  `none` means the schedule ran out while the loop was
still spinning (the real loop would simply keep spinning). -/
def pushBlocking (cap : Nat) (w : Nat) : List Nat → TxState → Option TxState
  | sched, s =>
    match txWrite cap w s with
    | (true, s') => some s'
    | (false, s') =>
      match sched with
      | [] => none
      | k :: ks => pushBlocking cap w ks (consumeN k s')

/-- The `for item in iterator { ... }` loop of `Ws2812Direct::write`:
packs each color and blocking-pushes it, in input order; `some` is the
`Ok(())` return. -/
def writeDirect (cap : Nat) : List RGB8 → List (List Nat) → TxState → Option TxState
  | [], _, s => some s
  | c :: cs, scheds, s =>
    match pushBlocking cap (packWord c) (scheds.headD []) s with
    | none => none
    | some s' => writeDirect cap cs scheds.tail s'

/-! ### The framed driver `Ws2812::write` -/

/-- One observation of the transmit channel's status flags, as read by one
iteration of the drain loop (`is_empty()`, `has_stalled()`). -/
structure TxStatus where
  is_empty : Bool
  has_stalled : Bool
deriving DecidableEq, Repr

/-- `while !self.driver.tx.is_empty() && !self.driver.tx.has_stalled() {}`:
polls successive statuses and returns the status observed when the loop
condition first fails; `none` if the poll trace ran out while still
spinning. -/
def drainWait : List TxStatus → Option TxStatus
  | [] => none
  | st :: rest =>
    if !st.is_empty && !st.has_stalled then drainWait rest else some st

/-- Observable steps of one `Ws2812::write` call, in execution order. -/
inductive FrameEvent where
  | clear_stall
  | drain_done
  | start_countdown (us : Nat)
  | countdown_elapsed
  | delegate (colors : List RGB8)
deriving DecidableEq, Repr

/-- `Ws2812::write` (the `SmartLedsWrite` impl): clear the stalled flag,
run the drain loop, start the 70 µs one-shot countdown and block on it,
then delegate to `Ws2812Direct::write` with the unmodified colors.
Returns the emitted event trace and the final queue state. -/
def writeFramed (cap : Nat) (colors : List RGB8) (polls : List TxStatus)
    (scheds : List (List Nat)) (s : TxState) :
    Option (List FrameEvent × TxState) :=
  let ev0 : List FrameEvent := [.clear_stall]
  match drainWait polls with
  | none => none
  | some _ =>
    let ev1 := ev0 ++ [.drain_done, .start_countdown 70, .countdown_elapsed]
    match writeDirect cap colors scheds s with
    | none => none
    | some s' => some (ev1 ++ [.delegate colors], s')

/-! ### The PIO timing program of `Ws2812Direct::new` -/

/-- The PIO instructions used by the program: each carries its side-set
level (the pin level driven for the whole instruction, delay included) and
its delay count. -/
inductive PioInstr where
  | out_x (side : Bool) (delay : Nat)
  | jmp_not_x (target : Nat) (side : Bool) (delay : Nat)
  | jmp (target : Nat) (side : Bool) (delay : Nat)
  | nop (side : Bool) (delay : Nat)
deriving DecidableEq, Repr

/-- The `pio_asm!` program:
`out x, 1 side 0 [T3-1]` / `jmp !x do_zero side 1 [T1-1]` /
`jmp bitloop side 1 [T2-1]` / `do_zero: nop side 0 [T2-1]`,
with `.wrap_target` at instruction 0 and `.wrap` after instruction 3. -/
def ws2812Program : List PioInstr :=
  [ .out_x false (T3 - 1),
    .jmp_not_x 3 true (T1 - 1),
    .jmp 0 true (T2 - 1),
    .nop false (T2 - 1) ]

/-- Program counter advance: `.wrap` sends control from after the last
instruction back to `.wrap_target` (instruction 0). -/
def nextPc (pc : Nat) : Nat := if pc = 3 then 0 else pc + 1

/-- State machine state: program counter, scratch register `x` (one bit),
and the stream of data bits still to be shifted out MSB-first (the OSR
together with all future autopull refills). -/
structure PioState where
  pc : Nat
  x : Bool
  osr : List Bool
deriving DecidableEq, Repr

/-- One instruction: returns the pin levels driven during its
`1 + delay` cycles and the next state.  `none` when the machine stalls on
`out` with no data left (autopull with an empty FIFO). -/
def pioStep (s : PioState) : Option (List Bool × PioState) :=
  match ws2812Program[s.pc]? with
  | none => none
  | some i =>
    match i with
    | .out_x side delay =>
      match s.osr with
      | [] => none
      | b :: rest => some (List.replicate (1 + delay) side, ⟨nextPc s.pc, b, rest⟩)
    | .jmp_not_x target side delay =>
      some (List.replicate (1 + delay) side,
        ⟨if s.x then nextPc s.pc else target, s.x, s.osr⟩)
    | .jmp target side delay =>
      some (List.replicate (1 + delay) side, ⟨target, s.x, s.osr⟩)
    | .nop side delay =>
      some (List.replicate (1 + delay) side, ⟨nextPc s.pc, s.x, s.osr⟩)

/-- Run `fuel` instructions, concatenating the pin levels they drive. -/
def pioRun : Nat → PioState → List Bool
  | 0, _ => []
  | fuel + 1, s =>
    match pioStep s with
    | none => []
    | some (out, s') => out ++ pioRun fuel s'

/-- The 10-cycle pin trace one loop iteration produces for data bit `b`,
phased at the `out` instruction: T3 cycles low (side-set of `out`), T1
cycles high, then T2 cycles at the bit's level. -/
def bitWave (b : Bool) : List Bool :=
  List.replicate T3 false ++ List.replicate T1 true ++ List.replicate T2 b

/-- The same waveform phased at the bit's rising edge, as the spec
describes it: T1 cycles high, T2 cycles at the bit's level, then the T3
cycles low that precede the next bit's rising edge. -/
def bitPeriod (b : Bool) : List Bool :=
  List.replicate T1 true ++ List.replicate T2 b ++ List.replicate T3 false

/-! ### State machine shift configuration -/

inductive ShiftDirection where
  | Left
  | Right
deriving DecidableEq, Repr

/-- The `PIOBuilder` shift settings applied in `Ws2812Direct::new`. -/
structure SmConfig where
  out_shift_direction : ShiftDirection
  autopull : Bool
  pull_threshold : Nat
deriving DecidableEq, Repr

/-- `.out_shift_direction(ShiftDirection::Left).autopull(true).pull_threshold(24)`. -/
def ws2812SmConfig : SmConfig :=
  { out_shift_direction := .Left, autopull := true, pull_threshold := 24 }

/-- One OSR output step for a 32-bit shift register: with `Left`, the bit
leaving the register is bit 31 and the register shifts left (mod 2^32);
with `Right`, bit 0 leaves and the register shifts right. -/
def osrOut (dir : ShiftDirection) (osr : Nat) : Bool × Nat :=
  match dir with
  | .Left => (decide (osr / 2 ^ 31 % 2 = 1), osr * 2 % 2 ^ 32)
  | .Right => (decide (osr % 2 = 1), osr / 2)

/-- Shift `n` bits out of the OSR in configuration order. -/
def osrShiftOut (dir : ShiftDirection) : Nat → Nat → List Bool
  | 0, _ => []
  | n + 1, osr =>
    (osrOut dir osr).1 :: osrShiftOut dir n (osrOut dir osr).2

/-- The bits a word loaded into the OSR contributes to the wire: with
autopull at threshold `pull_threshold`, exactly that many bits are shifted
before the next word is pulled. -/
def wireBits (w : Nat) : List Bool :=
  osrShiftOut ws2812SmConfig.out_shift_direction ws2812SmConfig.pull_threshold w

/-- The 8 bits of a byte, most significant first. -/
def byteBits (x : Nat) : List Bool :=
  (List.range 8).map (fun i => decide (x / 2 ^ (7 - i) % 2 = 1))

/-! ### Helper lemmas -/

lemma divisor_rem_lt (clock_freq : Nat) : divisor_rem clock_freq < bit_freq := by
  unfold divisor_rem divisor_int bit_freq FREQ CYCLES_PER_BIT T1 T2 T3
  omega

/-! ### Claim theorems -/

/-- C1: the clock divisor is computed as: integer part = system clock
integer-divided by (800000 Hz × 10 cycles-per-bit); remainder = system
clock minus integer part times that denominator; fractional part =
(remainder × 256) integer-divided by the same denominator; and for system
clock 125,000,000 Hz this yields exactly integer part 15 (with remainder
5,000,000) and fractional part 160. -/
theorem C1_divisor_computation :
    (∀ cf, divisor_int cf = cf / (800000 * 10)) ∧
    (∀ cf, divisor_rem cf = cf - divisor_int cf * (800000 * 10)) ∧
    (∀ cf, divisor_frac cf = divisor_rem cf * 256 / (800000 * 10)) ∧
    divisor_int 125000000 = 15 ∧
    divisor_rem 125000000 = 5000000 ∧
    divisor_frac 125000000 = 160 := by
  refine ⟨fun cf => ?_, fun cf => ?_, fun cf => ?_, by decide, by decide, by decide⟩
  · unfold divisor_int bit_freq FREQ CYCLES_PER_BIT T1 T2 T3
    norm_num
  · unfold divisor_rem bit_freq FREQ CYCLES_PER_BIT T1 T2 T3
    norm_num
  · have h := divisor_rem_lt cf
    unfold bit_freq FREQ CYCLES_PER_BIT T1 T2 T3 at h
    unfold divisor_frac bit_freq FREQ CYCLES_PER_BIT T1 T2 T3
    omega

/-- C2: construction succeeds exactly when the computed integer divisor
lies in [1, 65536] and, at 65536, the fractional part is 0; any violation
makes construction fail (`none`, the modelled panic) rather than clamping;
and an integer part of exactly 65536 is stored as the wrap value 0. -/
theorem C2_construction_guard :
    (∀ cf, (∃ v, ws2812_new cf = some v) ↔
        (1 ≤ divisor_int cf ∧ divisor_int cf ≤ 65536 ∧
          (divisor_int cf = 65536 → divisor_frac cf = 0))) ∧
    (∀ cf, divisor_int cf = 65536 → divisor_frac cf = 0 →
        ws2812_new cf = some (0, 0)) := by
  constructor
  · intro cf
    unfold ws2812_new
    by_cases h : divisorOk cf
    · simp only [if_pos h]
      unfold divisorOk at h
      constructor
      · intro _; tauto
      · intro _; exact ⟨_, rfl⟩
    · simp only [if_neg h]
      unfold divisorOk at h
      constructor
      · rintro ⟨v, hv⟩; simp at hv
      · intro hc; exact absurd ⟨⟨hc.1, hc.2.1⟩, by tauto⟩ h
  · intro cf h65 hfrac
    have hok : divisorOk cf := ⟨⟨by omega, by omega⟩, Or.inr hfrac⟩
    unfold ws2812_new
    simp [if_pos hok, h65, hfrac]

/-- Witness for C2: at system clock 524,288,000,000 Hz the integer part is
exactly 65536 and construction stores the wrap value 0. -/
theorem C2_construction_guard_witness :
    ws2812_new 524288000000 = some (0, 0) :=
  C2_construction_guard.2 524288000000 (by decide) (by decide)

/-- C9: for every u32 system clock accepted by the assertion, the
narrowing casts are value-preserving: the fractional part is at most 255,
the intermediate product `rem * 256` does not overflow u32, and the
wrapped integer part fits in u16. -/
theorem C9_narrowing_casts (cf : Nat) (hcf : cf < 2 ^ 32) (_hok : divisorOk cf) :
    divisor_frac cf ≤ 255 ∧
    divisor_rem cf * 256 < 2 ^ 32 ∧
    (if divisor_int cf = 65536 then 0 else divisor_int cf) < 2 ^ 16 := by
  have h := divisor_rem_lt cf
  unfold bit_freq FREQ CYCLES_PER_BIT T1 T2 T3 at h
  refine ⟨?_, by omega, ?_⟩
  · unfold divisor_frac bit_freq FREQ CYCLES_PER_BIT T1 T2 T3
    omega
  · have hi : divisor_int cf ≠ 65536 := by
      unfold divisor_int bit_freq FREQ CYCLES_PER_BIT T1 T2 T3
      omega
    rw [if_neg hi]
    unfold divisor_int bit_freq FREQ CYCLES_PER_BIT T1 T2 T3
    omega

/-- Witness for C9 at system clock 125,000,000 Hz. -/
theorem C9_narrowing_casts_witness :
    divisor_frac 125000000 ≤ 255 ∧
    divisor_rem 125000000 * 256 < 2 ^ 32 ∧
    (if divisor_int 125000000 = 65536 then 0 else divisor_int 125000000) < 2 ^ 16 :=
  C9_narrowing_casts 125000000 (by decide) (by decide)

/-- C3: for channels in 0..=255, the packed wire word has g in bits
31–24, r in bits 23–16, b in bits 15–8 and zero in bits 7–0, and
unpacking by the same byte-lane convention recovers (r, g, b). -/
theorem C3_pack_byte_lanes (c : RGB8)
    (hr : c.r < 256) (hg : c.g < 256) (hb : c.b < 256) :
    packWord c / 2 ^ 24 % 2 ^ 8 = c.g ∧
    packWord c / 2 ^ 16 % 2 ^ 8 = c.r ∧
    packWord c / 2 ^ 8 % 2 ^ 8 = c.b ∧
    packWord c % 2 ^ 8 = 0 ∧
    unpackWord (packWord c) = (c.r, c.g, c.b) := by
  unfold unpackWord
  rw [packWord_eq c hr hg hb]
  simp only [Prod.mk.injEq]
  omega

/-- Witness for C3 at the color (r, g, b) = (1, 2, 3). -/
theorem C3_pack_byte_lanes_witness :
    packWord ⟨1, 2, 3⟩ / 2 ^ 24 % 2 ^ 8 = (⟨1, 2, 3⟩ : RGB8).g ∧
    packWord ⟨1, 2, 3⟩ / 2 ^ 16 % 2 ^ 8 = (⟨1, 2, 3⟩ : RGB8).r ∧
    packWord ⟨1, 2, 3⟩ / 2 ^ 8 % 2 ^ 8 = (⟨1, 2, 3⟩ : RGB8).b ∧
    packWord ⟨1, 2, 3⟩ % 2 ^ 8 = 0 ∧
    unpackWord (packWord ⟨1, 2, 3⟩) = (1, 2, 3) :=
  C3_pack_byte_lanes ⟨1, 2, 3⟩ (by decide) (by decide) (by decide)

lemma drainWait_cons (st : TxStatus) (rest : List TxStatus) :
    drainWait (st :: rest) =
      if !st.is_empty && !st.has_stalled then drainWait rest else some st := rfl

lemma pushBlocking_pushed (cap w : Nat) :
    ∀ (sched : List Nat) (s s' : TxState),
      pushBlocking cap w sched s = some s' → s'.pushed = s.pushed ++ [w] := by
  intro sched
  induction sched with
  | nil =>
    intro s s' h
    unfold pushBlocking txWrite at h
    by_cases hc : s.fifo.length < cap
    · simp only [if_pos hc] at h
      cases h
      rfl
    · simp only [if_neg hc] at h
      cases h
  | cons k ks ih =>
    intro s s' h
    unfold pushBlocking txWrite at h
    by_cases hc : s.fifo.length < cap
    · simp only [if_pos hc] at h
      cases h
      rfl
    · simp only [if_neg hc] at h
      have := ih (consumeN k s) s' h
      simpa [consumeN] using this

lemma writeDirect_pushed (cap : Nat) :
    ∀ (cs : List RGB8) (scheds : List (List Nat)) (s s' : TxState),
      writeDirect cap cs scheds s = some s' →
      s'.pushed = s.pushed ++ cs.map packWord := by
  intro cs
  induction cs with
  | nil =>
    intro scheds s s' h
    unfold writeDirect at h
    cases h
    simp
  | cons c rest ih =>
    intro scheds s s' h
    unfold writeDirect at h
    cases hp : pushBlocking cap (packWord c) (scheds.headD []) s with
    | none => rw [hp] at h; cases h
    | some s1 =>
      rw [hp] at h
      have h1 := pushBlocking_pushed cap (packWord c) _ _ _ hp
      have h2 := ih scheds.tail s1 s' h
      rw [h2, h1]
      simp

/-- C4: `Ws2812Direct::write` pushes exactly one packed word per input
color, in input order, with no reordering, duplication or drops, and
returns success; the empty sequence pushes nothing and succeeds at once;
and a full queue is absorbed by busy-waiting (the word is pushed exactly
once on loop exit, never dropped or turned into an error). -/
theorem C4_write_pushes_in_order :
    (∀ (cap : Nat) (cs : List RGB8) (scheds : List (List Nat)) (s s' : TxState),
        writeDirect cap cs scheds s = some s' →
        s'.pushed = s.pushed ++ cs.map packWord) ∧
    (∀ (cap : Nat) (scheds : List (List Nat)) (s : TxState),
        writeDirect cap [] scheds s = some s) ∧
    (∀ (cap w : Nat) (sched : List Nat) (s s' : TxState),
        pushBlocking cap w sched s = some s' →
        s'.pushed = s.pushed ++ [w]) := by
  refine ⟨fun cap cs scheds s s' h => writeDirect_pushed cap cs scheds s s' h,
    fun cap scheds s => rfl,
    fun cap w sched s s' h => pushBlocking_pushed cap w sched s s' h⟩

/-- Witness for C4: a 2-color write through a capacity-1 queue (larger
than the queue) pushes exactly the two packed words in input order. -/
theorem C4_write_pushes_in_order_witness :
    (⟨[packWord ⟨4, 5, 6⟩], [packWord ⟨1, 2, 3⟩, packWord ⟨4, 5, 6⟩]⟩ : TxState).pushed =
      (⟨[], []⟩ : TxState).pushed ++ [(⟨1, 2, 3⟩ : RGB8), ⟨4, 5, 6⟩].map packWord :=
  C4_write_pushes_in_order.1 1 [⟨1, 2, 3⟩, ⟨4, 5, 6⟩] [[0], [1]] ⟨[], []⟩
    ⟨[packWord ⟨4, 5, 6⟩], [packWord ⟨1, 2, 3⟩, packWord ⟨4, 5, 6⟩]⟩ (by decide)

/-- C5 counterexample: the drain loop of `Ws2812::write` can exit at a
status whose queue is still non-empty (stalled flag set), refuting the
claim that at loop exit the queue is empty and the stall flag clear. -/
theorem C5_drain_exit_counterexample :
    drainWait [⟨false, true⟩] = some ⟨false, true⟩ ∧
    (⟨false, true⟩ : TxStatus).is_empty = false := by
  constructor
  · rfl
  · rfl

/-- C5 (amended): every `Ws2812::write` clears the stalled flag first
(before the drain wait and any packing), then busy-waits until the
transmit queue is empty OR the stall flag is set; when the wait loop
exits, the queue is empty or the stall flag is set (not necessarily
both empty and unstalled). -/
theorem C5_drain_wait_amended :
    (∀ (polls : List TxStatus) (st : TxStatus), drainWait polls = some st →
        st.is_empty = true ∨ st.has_stalled = true) ∧
    (∀ (cap : Nat) (colors : List RGB8) (polls : List TxStatus)
        (scheds : List (List Nat)) (s : TxState) (evs : List FrameEvent)
        (s' : TxState), writeFramed cap colors polls scheds s = some (evs, s') →
        evs.take 2 = [.clear_stall, .drain_done]) := by
  constructor
  · intro polls
    induction polls with
    | nil => intro st h; cases h
    | cons p rest ih =>
      intro st h
      unfold drainWait at h
      by_cases hc : !p.is_empty && !p.has_stalled
      · rw [if_pos hc] at h
        exact ih st h
      · rw [if_neg hc] at h
        cases h
        cases hpe : p.is_empty <;> cases hps : p.has_stalled <;> simp_all
  · intro cap colors polls scheds s evs s' h
    unfold writeFramed at h
    cases hd : drainWait polls with
    | none => rw [hd] at h; cases h
    | some st =>
      rw [hd] at h
      cases hw : writeDirect cap colors scheds s with
      | none => rw [hw] at h; cases h
      | some s1 =>
        rw [hw] at h
        cases h
        rfl

/-- Witness for C5 (amended): a concrete drain trace ending at an empty,
unstalled queue, and a concrete framed write whose first two events are
clearing the stall flag and finishing the drain. -/
theorem C5_drain_wait_amended_witness :
    ((⟨true, false⟩ : TxStatus).is_empty = true ∨
      (⟨true, false⟩ : TxStatus).has_stalled = true) ∧
    ([FrameEvent.clear_stall, .drain_done, .start_countdown 70,
        .countdown_elapsed, .delegate []].take 2 =
      [FrameEvent.clear_stall, .drain_done]) :=
  ⟨C5_drain_wait_amended.1 [⟨true, false⟩] ⟨true, false⟩ (by decide),
    C5_drain_wait_amended.2 8 [] [⟨true, false⟩] [] ⟨[], []⟩
      [FrameEvent.clear_stall, .drain_done, .start_countdown 70,
        .countdown_elapsed, .delegate []] ⟨[], []⟩ (by decide)⟩

/-- C10: the drain loop terminates as soon as the queue is empty OR the
stalled flag is set; in particular a stall ends the wait even while the
queue is still non-empty, and while the queue is non-empty and unstalled
the loop keeps spinning. -/
theorem C10_drain_exit_condition :
    (∀ (st : TxStatus) (rest : List TxStatus),
        st.is_empty = true ∨ st.has_stalled = true →
        drainWait (st :: rest) = some st) ∧
    (∀ (st : TxStatus) (rest : List TxStatus),
        st.is_empty = false → st.has_stalled = false →
        drainWait (st :: rest) = drainWait rest) ∧
    (∀ rest : List TxStatus, drainWait (⟨false, true⟩ :: rest) = some ⟨false, true⟩) := by
  refine ⟨?_, ?_, ?_⟩
  · intro st rest h
    rw [drainWait_cons]
    rcases h with h | h <;> simp [h]
  · intro st rest he hs
    rw [drainWait_cons]
    simp [he, hs]
  · intro rest
    rw [drainWait_cons]
    rfl

/-- Witness for C10: a stalled status with a non-empty queue ends the
wait immediately. -/
theorem C10_drain_exit_condition_witness :
    drainWait [⟨false, true⟩, ⟨false, false⟩] = some ⟨false, true⟩ :=
  C10_drain_exit_condition.1 ⟨false, true⟩ [⟨false, false⟩] (Or.inr rfl)

/-- C6: in every `Ws2812::write` call the steps occur in exactly the
order: drain wait, one-shot 70 µs countdown started and blocked on, then
the delegated `Ws2812Direct::write` with the same unmodified color
sequence (whose effect is exactly the in-order push of the packed words). -/
theorem C6_frame_ordering (cap : Nat) (colors : List RGB8)
    (polls : List TxStatus) (scheds : List (List Nat)) (s : TxState)
    (evs : List FrameEvent) (s' : TxState)
    (h : writeFramed cap colors polls scheds s = some (evs, s')) :
    evs = [.clear_stall, .drain_done, .start_countdown 70,
      .countdown_elapsed, .delegate colors] ∧
    writeDirect cap colors scheds s = some s' ∧
    s'.pushed = s.pushed ++ colors.map packWord := by
  unfold writeFramed at h
  cases hd : drainWait polls with
  | none => rw [hd] at h; cases h
  | some st =>
    rw [hd] at h
    cases hw : writeDirect cap colors scheds s with
    | none => rw [hw] at h; cases h
    | some s1 =>
      rw [hw] at h
      cases h
      exact ⟨rfl, rfl, writeDirect_pushed cap colors scheds s _ hw⟩

/-- Witness for C6: a concrete framed write of one color. -/
theorem C6_frame_ordering_witness :
    [FrameEvent.clear_stall, .drain_done, .start_countdown 70,
        .countdown_elapsed, .delegate [⟨1, 2, 3⟩]] =
      [FrameEvent.clear_stall, .drain_done, .start_countdown 70,
        .countdown_elapsed, .delegate [⟨1, 2, 3⟩]] ∧
    writeDirect 8 [⟨1, 2, 3⟩] [[0]] ⟨[], []⟩ =
      some ⟨[packWord ⟨1, 2, 3⟩], [packWord ⟨1, 2, 3⟩]⟩ ∧
    (⟨[packWord ⟨1, 2, 3⟩], [packWord ⟨1, 2, 3⟩]⟩ : TxState).pushed =
      (⟨[], []⟩ : TxState).pushed ++ [(⟨1, 2, 3⟩ : RGB8)].map packWord :=
  C6_frame_ordering 8 [⟨1, 2, 3⟩] [⟨true, false⟩] [[0]] ⟨[], []⟩
    [FrameEvent.clear_stall, .drain_done, .start_countdown 70,
      .countdown_elapsed, .delegate [⟨1, 2, 3⟩]]
    ⟨[packWord ⟨1, 2, 3⟩], [packWord ⟨1, 2, 3⟩]⟩ (by decide)

lemma pioRun_step (n : Nat) (s : PioState) (out : List Bool) (s' : PioState)
    (h : pioStep s = some (out, s')) : pioRun (n + 1) s = out ++ pioRun n s' := by
  have e : pioRun (n + 1) s =
      match pioStep s with
      | none => []
      | some (out, s') => out ++ pioRun n s' := rfl
  rw [e, h]

lemma pioStep_pc0 (x b : Bool) (rest : List Bool) :
    pioStep ⟨0, x, b :: rest⟩ = some (List.replicate 3 false, ⟨1, b, rest⟩) := rfl

lemma pioStep_pc1_true (osr : List Bool) :
    pioStep ⟨1, true, osr⟩ = some (List.replicate 2 true, ⟨2, true, osr⟩) := rfl

lemma pioStep_pc1_false (osr : List Bool) :
    pioStep ⟨1, false, osr⟩ = some (List.replicate 2 true, ⟨3, false, osr⟩) := rfl

lemma pioStep_pc2 (x : Bool) (osr : List Bool) :
    pioStep ⟨2, x, osr⟩ = some (List.replicate 5 true, ⟨0, x, osr⟩) := rfl

lemma pioStep_pc3 (x : Bool) (osr : List Bool) :
    pioStep ⟨3, x, osr⟩ = some (List.replicate 5 false, ⟨0, x, osr⟩) := rfl

/-- Running the program from the loop top emits one `bitWave` chunk per
data bit, in order. -/
lemma pioRun_bits :
    ∀ (bs : List Bool) (x : Bool),
      pioRun (3 * bs.length) ⟨0, x, bs⟩ = (bs.map bitWave).flatten := by
  intro bs
  induction bs with
  | nil =>
    intro x
    simp [pioRun]
  | cons b rest ih =>
    intro x
    have hf : 3 * (b :: rest).length = 3 * rest.length + 1 + 1 + 1 := by
      simp [List.length_cons]; ring
    rw [hf, pioRun_step _ _ _ _ (pioStep_pc0 x b rest)]
    cases b
    · rw [pioRun_step _ _ _ _ (pioStep_pc1_false rest),
        pioRun_step _ _ _ _ (pioStep_pc3 false rest), ih false]
      simp [bitWave, T1, T2, T3]
    · rw [pioRun_step _ _ _ _ (pioStep_pc1_true rest),
        pioRun_step _ _ _ _ (pioStep_pc2 true rest), ih true]
      simp [bitWave, T1, T2, T3]

/-- Re-phasing: shifting the trace by the initial T3 low cycles shows each
bit as the spec's rising-edge-aligned period. -/
lemma bitWave_rephase :
    ∀ bs : List Bool,
      (bs.map bitWave).flatten ++ List.replicate T3 false =
        List.replicate T3 false ++ (bs.map bitPeriod).flatten := by
  intro bs
  induction bs with
  | nil => simp
  | cons b rest ih =>
    simp only [List.map_cons, List.flatten_cons, List.append_assoc, ih]
    simp [bitWave, bitPeriod, List.append_assoc]

/-- C7: for every output bit the program emits a waveform of total period
T1+T2+T3 = 10 state-machine cycles regardless of the bit's value: T1 = 2
cycles high, then T2 = 5 more cycles high for a 1-bit (7-cycle pulse) or
T2 = 5 cycles low for a 0-bit (2-cycle pulse), with a T3 = 3 cycle low
phase before the next bit's rising edge. -/
theorem C7_bit_waveform (bs : List Bool) (x : Bool) :
    pioRun (3 * bs.length) ⟨0, x, bs⟩ = (bs.map bitWave).flatten ∧
    (∀ b, (bitWave b).length = T1 + T2 + T3) ∧
    T1 + T2 + T3 = 10 ∧
    (∀ b, bitWave b = List.replicate T3 false ++
        (if b then List.replicate (T1 + T2) true
         else List.replicate T1 true ++ List.replicate T2 false)) ∧
    pioRun (3 * bs.length) ⟨0, x, bs⟩ ++ List.replicate T3 false =
      List.replicate T3 false ++ (bs.map bitPeriod).flatten ∧
    (∀ b, bitPeriod b = List.replicate T1 true ++ List.replicate T2 b ++
        List.replicate T3 false) := by
  refine ⟨pioRun_bits bs x, ?_, rfl, ?_, ?_, fun b => rfl⟩
  · intro b
    simp [bitWave, T1, T2, T3]
  · intro b
    cases b <;> simp [bitWave, T1, T2, T3, List.replicate_succ]
  · rw [pioRun_bits bs x]
    exact bitWave_rephase bs

/-- Closed form of a left (MSB-first) shift-out from a 32-bit OSR. -/
lemma osrShiftOut_left_eq :
    ∀ (n osr : Nat), osr < 2 ^ 32 →
      osrShiftOut .Left n osr =
        (List.range n).map
          (fun i => decide (osr * 2 ^ i % 2 ^ 32 / 2 ^ 31 % 2 = 1)) := by
  intro n
  induction n with
  | zero => intro osr h; simp [osrShiftOut]
  | succ m ih =>
    intro osr h
    have hstep : osrShiftOut .Left (m + 1) osr =
        (osrOut .Left osr).1 :: osrShiftOut .Left m (osrOut .Left osr).2 := rfl
    rw [hstep, List.range_succ_eq_map, List.map_cons, List.map_map]
    have h1 : (osrOut ShiftDirection.Left osr).1 =
        decide (osr / 2 ^ 31 % 2 = 1) := rfl
    have h2 : (osrOut ShiftDirection.Left osr).2 = osr * 2 % 2 ^ 32 := rfl
    rw [h1, h2, ih (osr * 2 % 2 ^ 32) (Nat.mod_lt _ (by norm_num))]
    congr 1
    · congr 1
      rw [pow_zero, Nat.mul_one, Nat.mod_eq_of_lt h]
    · apply List.map_congr_left
      intro i _
      simp only [Function.comp_apply, decide_eq_decide]
      rw [Nat.mod_mul_mod]
      have : osr * 2 * 2 ^ i = osr * 2 ^ (Nat.succ i) := by
        rw [Nat.succ_eq_add_one, pow_succ]; ring
      rw [this]

lemma wireBits_def (w : Nat) : wireBits w = osrShiftOut .Left 24 w := rfl

lemma range24_eq : List.range 24 =
    [0, 1, 2, 3, 4, 5, 6, 7, 8, 9, 10, 11, 12,
     13, 14, 15, 16, 17, 18, 19, 20, 21, 22, 23] := rfl

lemma range8_eq : List.range 8 = [0, 1, 2, 3, 4, 5, 6, 7] := rfl

/-- With left shift and threshold 24, one packed color word puts exactly
the 24 bits of g, r, b (MSB first, in that lane order) on the wire. -/
lemma wireBits_pack (c : RGB8) (hr : c.r < 256) (hg : c.g < 256) (hb : c.b < 256) :
    wireBits (packWord c) = byteBits c.g ++ byteBits c.r ++ byteBits c.b := by
  have hlt : packWord c < 2 ^ 32 := Nat.mod_lt _ (by norm_num)
  rw [wireBits_def, osrShiftOut_left_eq 24 _ hlt, packWord_eq c hr hg hb]
  unfold byteBits
  rw [range24_eq, range8_eq]
  simp only [List.map_cons, List.map_nil, List.cons_append, List.nil_append,
    List.cons.injEq, and_true, decide_eq_decide]
  norm_num
  omega

/-- The wire bits of a word depend only on its three high byte lanes. -/
lemma wireBits_high_bytes (w w' : Nat) (hw : w < 2 ^ 32) (hw' : w' < 2 ^ 32)
    (h : w / 2 ^ 8 = w' / 2 ^ 8) : wireBits w = wireBits w' := by
  rw [wireBits_def, wireBits_def, osrShiftOut_left_eq 24 w hw,
    osrShiftOut_left_eq 24 w' hw']
  rw [range24_eq]
  simp only [List.map_cons, List.map_nil, List.cons.injEq, and_true,
    decide_eq_decide]
  norm_num at h ⊢
  omega

/-- C8: the state machine is configured to shift out MSB-first (Left)
with auto-pull at a 24-bit threshold, so one packed color word is
consumed per pull — its 24 high bits (g, r, b lanes, each MSB first) go
onto the wire — and the unused low byte is never shifted out. -/
theorem C8_shift_configuration :
    ws2812SmConfig.out_shift_direction = ShiftDirection.Left ∧
    ws2812SmConfig.autopull = true ∧
    ws2812SmConfig.pull_threshold = 24 ∧
    (∀ c : RGB8, c.r < 256 → c.g < 256 → c.b < 256 →
      wireBits (packWord c) = byteBits c.g ++ byteBits c.r ++ byteBits c.b) ∧
    (∀ w w', w < 2 ^ 32 → w' < 2 ^ 32 → w / 2 ^ 8 = w' / 2 ^ 8 →
      wireBits w = wireBits w') :=
  ⟨rfl, rfl, rfl,
    fun c hr hg hb => wireBits_pack c hr hg hb,
    fun w w' hw hw' h => wireBits_high_bytes w w' hw hw' h⟩

/-- Witness for C8: the color (1, 2, 3) and two words sharing the high
three byte lanes but differing in the unused low byte. -/
theorem C8_shift_configuration_witness :
    wireBits (packWord ⟨1, 2, 3⟩) = byteBits 2 ++ byteBits 1 ++ byteBits 3 ∧
    wireBits 16909060 = wireBits 16909311 :=
  ⟨C8_shift_configuration.2.2.2.1 ⟨1, 2, 3⟩ (by decide) (by decide) (by decide),
    C8_shift_configuration.2.2.2.2 16909060 16909311 (by decide) (by decide)
      (by decide)⟩

end Ws2812
